import Mathlib

/-!
Shallow embedding of the boopifier hook-normalization core
(src/event.rs, src/hooks/mod.rs, src/hooks/opencode.rs) and proofs of the
spec's testable properties about it.

JSON values are modelled by the inductive `Json`; the `serde_json::Value`
number variant is modelled by an integer payload, which is irrelevant to
every property proved here.  A `HashMap<String, Value>` field mapping is
modelled as an association list with the usual first-match lookup; the
invariant that keys are unique (as in a `HashMap`) appears as a `Nodup`
hypothesis exactly where a property depends on it.
-/

set_option autoImplicit false

namespace Boopifier

/-- JSON values, mirroring `serde_json::Value`. -/
inductive Json where
  | null
  | bool (b : Bool)
  | num (n : Int)
  | str (s : String)
  | arr (elems : List Json)
  | obj (fields : List (String × Json))

/-- First-match lookup in a field mapping, the model of `HashMap::get`. -/
def getField : List (String × Json) → String → Option Json
  | [], _ => none
  | (k, v) :: rest, key => if k = key then some v else getField rest key

/-- Model of `HashMap::contains_key`. -/
def containsKey (data : List (String × Json)) (key : String) : Bool :=
  (getField data key).isSome

/-- Model of `HashMap::insert`: replaces the value when the key is present,
otherwise adds the entry. -/
def insertField (data : List (String × Json)) (key : String) (v : Json) :
    List (String × Json) :=
  if containsKey data key then
    data.map (fun p => if p.1 = key then (key, v) else p)
  else
    data ++ [(key, v)]

/-- Model of `serde_json::Value::as_str`. -/
def Json.as_str : Json → Option String
  | Json.str s => some s
  | _ => none

/-- Model of `serde_json::Value::get` with a string index: field lookup on
objects, `None` on every other variant. -/
def Json.get : Json → String → Option Json
  | Json.obj fields, key => getField fields key
  | _, _ => none

/-- Model of Rust `str::contains(char)`: the character occurs in the
string. -/
def strContains (s : String) (c : Char) : Bool :=
  s.data.contains c

/-- Split a character list at every occurrence of `c`, keeping empty
segments, the semantics of Rust `str::split(char)`. -/
def splitChar (c : Char) : List Char → List (List Char)
  | [] => [[]]
  | x :: xs =>
    match splitChar c xs with
    | r :: rs => if x = c then [] :: r :: rs else (x :: r) :: rs
    | [] => if x = c then [[], []] else [[x]]

/-- Model of `path.split('.')` in `Event::get_nested_str`. -/
def splitOnDot (path : String) : List String :=
  (splitChar '.' path.data).map (fun cs => String.mk cs)

/-- The event structure of src/event.rs: a flexible JSON field mapping. -/
structure Event where
  data : List (String × Json)

/-- Embedding of `map_opencode_event` (src/hooks/opencode.rs lines 28-41):
the closed table from OpenCode dotted identities to internal hook names. -/
def map_opencode_event (event_type : String) : Option String :=
  if event_type = "tool.execute.before" then some "PreToolUse"
  else if event_type = "tool.execute.after" then some "PostToolUse"
  else if event_type = "session.idle" then some "Stop"
  else if event_type = "session.created" then some "SessionStart"
  else if event_type = "session.deleted" then some "SessionEnd"
  else if event_type = "session.completed" then some "Stop"
  else if event_type = "session.compacted" then some "PreCompact"
  else if event_type = "session.compacting" then some "PreCompact"
  else if event_type = "file.edited" then some "FileEdited"
  else if event_type = "session.error" then some "SessionError"
  else none

/-- One iteration of the detection loop of `detect_opencode_event_type`:
the field's value must be a string containing a dot with a known mapping. -/
def check_field (data : List (String × Json)) (field : String) : Option String :=
  match getField data field with
  | some (Json.str s) =>
      if strContains s '.' && (map_opencode_event s).isSome then some s else none
  | _ => none

/-- Embedding of `detect_opencode_event_type` (src/hooks/opencode.rs lines
47-59): scan the fields `type`, `event`, `hook` in that order and return the
first value that is a dotted string with a known mapping. -/
def detect_opencode_event_type (data : List (String × Json)) : Option String :=
  (["type", "event", "hook"]).findSome? (check_field data)

/-- The normalization step of `Event::from_json` (src/event.rs lines 41-51):
inject `hook_event_name` when it is missing and an OpenCode identity is
detected and mapped. -/
def Event.normalize (event : Event) : Event :=
  if containsKey event.data "hook_event_name" then event
  else
    match detect_opencode_event_type event.data with
    | some oc_type =>
      match map_opencode_event oc_type with
      | some mapped =>
          ⟨insertField event.data "hook_event_name" (Json.str mapped)⟩
      | none => event
    | none => event

/-- Embedding of `Event::from_json` (src/event.rs lines 36-54) after JSON
text deserialization: serde's parsing of the input text into the field
mapping is the external library's job, so the embedding starts from the
deserialized field mapping and performs the normalization step. -/
def Event.from_json_data (data : List (String × Json)) : Event :=
  Event.normalize ⟨data⟩

/-- Embedding of `Event::get_str` (src/event.rs lines 57-59). -/
def Event.get_str (e : Event) (key : String) : Option String :=
  (getField e.data key).bind Json.as_str

/-- The path-walking loop of `Event::get_nested_str`: repeatedly apply
`Value::get` to each path segment, failing as soon as one is missing. -/
def walkPath : Json → List String → Option Json
  | current, [] => some current
  | current, part :: rest =>
    match current.get part with
    | some next => walkPath next rest
    | none => none

/-- Embedding of `Event::get_nested_str` (src/event.rs lines 62-77): split
the path on dots, walk the JSON tree built from the field mapping, and read
the final value as a string. -/
def Event.get_nested_str (e : Event) (path : String) : Option String :=
  (walkPath (Json.obj e.data) (splitOnDot path)).bind Json.as_str

/-- Permission decision vocabulary from src/hooks/mod.rs. -/
inductive PermissionDecision where
  | allow
  | deny
  | ask
  deriving DecidableEq

/-- Interactive handler response from src/hooks/mod.rs. -/
structure InteractiveResponse where
  decision : PermissionDecision
  reason : Option String
  deriving DecidableEq

/-- Handler outcome vocabulary from src/hooks/mod.rs. -/
inductive HandlerOutcome where
  | success
  | error (msg : String)
  | interactive (resp : InteractiveResponse)
  deriving DecidableEq

/-- The concrete hook variants constructed by `hook_from_name`
(src/hooks/mod.rs lines 85-100), one per internal hook type.  `stopHook`
carries the name it was constructed with (`StopHook::new(hook_event_name)`)
and `preToolUseHook` the tool identity parsed at construction time. -/
inductive HookInst where
  | stopHook (name : String)
  | notificationHook
  | preToolUseHook (tool : String)
  | postToolUseHook
  | permissionRequestHook
  | userPromptSubmitHook
  | sessionStartHook
  | sessionEndHook
  | preCompactHook
  | fileEditedHook
  | sessionErrorHook
  deriving DecidableEq

/-- The `hook_type` method of each variant.  For `fileEditedHook` and
`sessionErrorHook` this is the source of src/hooks/opencode.rs (lines 67-91).
Modelled from the spec: the remaining variants live in source files not
present under src/ (stop.rs, notification.rs, tool_use.rs, permission.rs,
prompt.rs, session.rs, compact.rs); spec section 4.4 requires `hookType()`
to equal the HookTypeName used to construct the variant. -/
def HookInst.hook_type : HookInst → String
  | .stopHook name => name
  | .notificationHook => "Notification"
  | .preToolUseHook _ => "PreToolUse"
  | .postToolUseHook => "PostToolUse"
  | .permissionRequestHook => "PermissionRequest"
  | .userPromptSubmitHook => "UserPromptSubmit"
  | .sessionStartHook => "SessionStart"
  | .sessionEndHook => "SessionEnd"
  | .preCompactHook => "PreCompact"
  | .fileEditedHook => "FileEdited"
  | .sessionErrorHook => "SessionError"

/-- Embedding of `FileEditedHook::generate_response` (src/hooks/opencode.rs
lines 72-74): always the empty JSON object, the outcomes are ignored. -/
def FileEditedHook.generate_response (_outcomes : List HandlerOutcome) : Json :=
  Json.obj []

/-- Embedding of `SessionErrorHook::generate_response`
(src/hooks/opencode.rs lines 88-90): always the empty JSON object. -/
def SessionErrorHook.generate_response (_outcomes : List HandlerOutcome) : Json :=
  Json.obj []

/-- Modelled from the spec: `PreToolUseHook::from_event` lives in
src/hooks/tool_use.rs, which is not present under src/.  Spec section 4.3:
PreToolUse "additionally parses tool-identity fields out of the event at
construction time and fails construction (propagating the error) if that
parsing fails".  We model it as requiring the event's tool-identity string
field. -/
def PreToolUseHook.from_event (event : Event) : Except String HookInst :=
  match event.get_str "tool_name" with
  | some tool => Except.ok (HookInst.preToolUseHook tool)
  | none => Except.error "PreToolUse event is missing a tool identity"

/-- Embedding of `hook_from_name` (src/hooks/mod.rs lines 85-100): dispatch
on the resolved hook-type name. -/
def hook_from_name (hook_event_name : String) (event : Event) :
    Except String HookInst :=
  if hook_event_name = "Stop" ∨ hook_event_name = "SubagentStop" then
    Except.ok (HookInst.stopHook hook_event_name)
  else if hook_event_name = "Notification" then
    Except.ok HookInst.notificationHook
  else if hook_event_name = "PreToolUse" then
    PreToolUseHook.from_event event
  else if hook_event_name = "PostToolUse" then
    Except.ok HookInst.postToolUseHook
  else if hook_event_name = "PermissionRequest" then
    Except.ok HookInst.permissionRequestHook
  else if hook_event_name = "UserPromptSubmit" then
    Except.ok HookInst.userPromptSubmitHook
  else if hook_event_name = "SessionStart" then
    Except.ok HookInst.sessionStartHook
  else if hook_event_name = "SessionEnd" then
    Except.ok HookInst.sessionEndHook
  else if hook_event_name = "PreCompact" then
    Except.ok HookInst.preCompactHook
  else if hook_event_name = "FileEdited" then
    Except.ok HookInst.fileEditedHook
  else if hook_event_name = "SessionError" then
    Except.ok HookInst.sessionErrorHook
  else
    Except.error ("Unknown hook type: " ++ hook_event_name)

/-- The name-resolution part of `hook_from_event` (src/hooks/mod.rs lines
69-79): the `let hook_event_name = ...` binding that either reads the
`hook_event_name` string field, or detects and maps an OpenCode identity,
or fails. -/
def resolve_hook_name (event : Event) : Except String String :=
  match event.get_str "hook_event_name" with
  | some name => Except.ok name
  | none =>
    match detect_opencode_event_type event.data with
    | some oc_event =>
      match map_opencode_event oc_event with
      | some mapped => Except.ok mapped
      | none => Except.error ("Unrecognized OpenCode event: " ++ oc_event)
    | none =>
      Except.error "No hook_event_name or recognized OpenCode event type found"

/-- Embedding of `hook_from_event` (src/hooks/mod.rs lines 67-82): resolve
the hook-type name, then construct the hook. -/
def hook_from_event (event : Event) : Except String HookInst :=
  match resolve_hook_name event with
  | Except.ok name => hook_from_name name event
  | Except.error e => Except.error e

/-- The closed enumeration of internal hook-type names (spec section 3). -/
def hookTypeNames : List String :=
  ["Stop", "SubagentStop", "Notification", "PreToolUse", "PostToolUse",
   "PermissionRequest", "UserPromptSubmit", "SessionStart", "SessionEnd",
   "PreCompact", "FileEdited", "SessionError"]

/-- Spec-side predicate: field `field` of the mapping holds a dotted string
with a recognized vendor mapping, the condition of spec section 4.2's
`detectVendorIdentity`. -/
def IsVendorIdentity (data : List (String × Json)) (field s : String) : Prop :=
  getField data field = some (Json.str s) ∧
    strContains s '.' = true ∧ (map_opencode_event s).isSome = true

/-- Spec-side relation: walking the dot-separated path `ps` from `v`, every
segment resolves and the walk ends at `u` (spec section 4.1's description of
`getNestedString`). -/
inductive PathResolves : Json → List String → Json → Prop where
  | nil (v : Json) : PathResolves v [] v
  | cons (v w u : Json) (p : String) (ps : List String) :
      Json.get v p = some w → PathResolves w ps u → PathResolves v (p :: ps) u

/-- A JSON value reads as the string `s` exactly when it is `Json.str s`. -/
theorem as_str_eq_some_iff (v : Json) (s : String) :
    v.as_str = some s ↔ v = Json.str s := by
  cases v <;> simp [Json.as_str]

/-- The string accessor in terms of the raw field lookup. -/
theorem get_str_eq_some_iff (e : Event) (key v : String) :
    e.get_str key = some v ↔ getField e.data key = some (Json.str v) := by
  unfold Event.get_str
  cases h : getField e.data key with
  | none => simp
  | some w => simp [as_str_eq_some_iff]

/-- Lookup distributes over append when the key is found on the left. -/
theorem getField_append_of_some {l₁ : List (String × Json)} (l₂ : List (String × Json))
    {key : String} {v : Json} (h : getField l₁ key = some v) :
    getField (l₁ ++ l₂) key = some v := by
  induction l₁ with
  | nil => simp [getField] at h
  | cons p rest ih =>
    obtain ⟨k, w⟩ := p
    by_cases hk : k = key <;> simp_all [getField]

/-- Lookup distributes over append when the key is missing on the left. -/
theorem getField_append_of_none {l₁ : List (String × Json)} (l₂ : List (String × Json))
    {key : String} (h : getField l₁ key = none) :
    getField (l₁ ++ l₂) key = getField l₂ key := by
  induction l₁ with
  | nil => simp [getField]
  | cons p rest ih =>
    obtain ⟨k, w⟩ := p
    by_cases hk : k = key <;> simp_all [getField]

/-- With unique keys, lookup is invariant under permutation of the mapping:
this is why a `HashMap` field mapping has a well-defined lookup independent
of insertion order. -/
theorem getField_perm {data data' : List (String × Json)}
    (h : data.Perm data') (hnd : (data.map Prod.fst).Nodup) (key : String) :
    getField data key = getField data' key := by
  induction h with
  | nil => rfl
  | cons x h ih =>
    obtain ⟨k, v⟩ := x
    simp only [List.map_cons, List.nodup_cons] at hnd
    by_cases hk : k = key <;> simp [getField, hk, ih hnd.2]
  | swap x y l =>
    obtain ⟨k₁, v₁⟩ := x
    obtain ⟨k₂, v₂⟩ := y
    simp only [List.map_cons, List.nodup_cons, List.mem_cons] at hnd
    have hne : k₂ ≠ k₁ := fun hcontra => hnd.1 (Or.inl hcontra)
    by_cases h₁ : k₁ = key <;> by_cases h₂ : k₂ = key <;>
      simp_all [getField]
  | trans h₁ h₂ ih₁ ih₂ =>
    exact (ih₁ hnd).trans (ih₂ (((h₁.map Prod.fst).nodup_iff).mp hnd))


/-- One loop iteration of the detection succeeds exactly on a recognized
dotted vendor identity. -/
theorem check_field_eq_some_iff (data : List (String × Json)) (f s : String) :
    check_field data f = some s ↔ IsVendorIdentity data f s := by
  unfold check_field IsVendorIdentity
  cases h : getField data f with
  | none => simp
  | some v =>
    cases v with
    | str s' =>
      dsimp only
      by_cases hc : strContains s' '.' && (map_opencode_event s').isSome
      · rw [if_pos hc]
        simp only [Bool.and_eq_true] at hc
        constructor
        · rintro ⟨rfl⟩
          exact ⟨rfl, hc.1, hc.2⟩
        · rintro ⟨hs, _, _⟩
          cases hs
          rfl
      · rw [if_neg hc]
        simp only [Bool.and_eq_true] at hc
        constructor
        · rintro ⟨⟩
        · rintro ⟨hs, h₁, h₂⟩
          cases hs
          exact absurd ⟨h₁, h₂⟩ hc
    | null => simp
    | bool b => simp
    | num n => simp
    | arr elems => simp
    | obj fields => simp

/-- One loop iteration of the detection fails exactly when the field does
not hold a recognized dotted vendor identity. -/
theorem check_field_eq_none_iff (data : List (String × Json)) (f : String) :
    check_field data f = none ↔ ∀ s, ¬ IsVendorIdentity data f s := by
  constructor
  · intro h s hs
    rw [← check_field_eq_some_iff] at hs
    rw [h] at hs
    cases hs
  · intro h
    cases hc : check_field data f with
    | none => rfl
    | some s => exact absurd ((check_field_eq_some_iff data f s).mp hc) (h s)

/-- Unfolding of the three-field detection loop. -/
theorem detect_opencode_event_type_eq (data : List (String × Json)) :
    detect_opencode_event_type data =
      match check_field data "type" with
      | some s => some s
      | none =>
        match check_field data "event" with
        | some s => some s
        | none => check_field data "hook" := by
  unfold detect_opencode_event_type
  simp only [List.findSome?_cons, List.findSome?_nil]
  cases check_field data "type" <;> cases check_field data "event" <;>
    cases check_field data "hook" <;> rfl

/-- Whatever the detection returns has a mapping: the loop only returns
strings it has already checked against the table. -/
theorem map_isSome_of_detect {data : List (String × Json)} {s : String}
    (h : detect_opencode_event_type data = some s) :
    ∃ m, map_opencode_event s = some m := by
  obtain ⟨f, _, hf⟩ := List.exists_of_findSome?_eq_some h
  have := (check_field_eq_some_iff data f s).mp hf
  obtain ⟨-, -, hsome⟩ := this
  exact Option.isSome_iff_exists.mp hsome


set_option maxHeartbeats 1000000 in
/-- Any hook successfully constructed by the factory reports the name it was
constructed from as its hook type. -/
theorem hook_type_of_hook_from_name {name : String} {e : Event} {hk : HookInst}
    (h : hook_from_name name e = Except.ok hk) : hk.hook_type = name := by
  unfold hook_from_name at h
  split at h
  · rename_i hcond
    cases h
    rcases hcond with rfl | rfl <;> rfl
  · split at h
    · rename_i hcond
      cases h
      rw [hcond]
      rfl
    · split at h
      · rename_i hcond
        unfold PreToolUseHook.from_event at h
        cases hg : Event.get_str e "tool_name" <;> rw [hg] at h <;> dsimp only at h
        · cases h
        · cases h
          rw [hcond]
          rfl
      · split at h
        · rename_i hcond
          cases h
          rw [hcond]
          rfl
        · split at h
          · rename_i hcond
            cases h
            rw [hcond]
            rfl
          · split at h
            · rename_i hcond
              cases h
              rw [hcond]
              rfl
            · split at h
              · rename_i hcond
                cases h
                rw [hcond]
                rfl
              · split at h
                · rename_i hcond
                  cases h
                  rw [hcond]
                  rfl
                · split at h
                  · rename_i hcond
                    cases h
                    rw [hcond]
                    rfl
                  · split at h
                    · rename_i hcond
                      cases h
                      rw [hcond]
                      rfl
                    · split at h
                      · rename_i hcond
                        cases h
                        rw [hcond]
                        rfl
                      · cases h

/-- The path walk succeeds exactly when every segment resolves. -/
theorem walkPath_eq_some_iff (ps : List String) :
    ∀ v w : Json, walkPath v ps = some w ↔ PathResolves v ps w := by
  induction ps with
  | nil =>
    intro v w
    constructor
    · intro h
      unfold walkPath at h
      cases h
      exact PathResolves.nil v
    · intro h
      cases h
      rfl
  | cons p rest ih =>
    intro v w
    unfold walkPath
    cases hg : v.get p with
    | none =>
      dsimp only
      constructor
      · intro h
        cases h
      · intro h
        cases h with
        | cons _ w' _ _ _ hget hrest =>
          rw [hg] at hget
          cases hget
    | some next =>
      dsimp only
      rw [ih next w]
      constructor
      · intro h
        exact PathResolves.cons v next w p rest hg h
      · intro h
        cases h with
        | cons _ w' _ _ _ hget hrest =>
          rw [hg] at hget
          cases hget
          exact hrest


/-- An event that already has the `hook_event_name` key is left unchanged by
normalization. -/
theorem normalize_of_containsKey {e : Event}
    (h : containsKey e.data "hook_event_name" = true) : e.normalize = e := by
  unfold Event.normalize
  simp [h]

/-- Parsing an object that already has the `hook_event_name` key returns its
field mapping unchanged. -/
theorem from_json_data_of_contains {data : List (String × Json)}
    (h : containsKey data "hook_event_name" = true) :
    Event.from_json_data data = ⟨data⟩ :=
  normalize_of_containsKey h

/-- A missing key makes `containsKey` false. -/
theorem containsKey_eq_false_of_getField_none {data : List (String × Json)}
    {key : String} (h : getField data key = none) : containsKey data key = false := by
  unfold containsKey
  rw [h]
  rfl

/-- When the key is absent and an identity is detected and mapped, parsing
appends exactly the one normalization entry. -/
theorem from_json_data_of_detect {data : List (String × Json)} {s m : String}
    (habs : getField data "hook_event_name" = none)
    (hdet : detect_opencode_event_type data = some s)
    (hm : map_opencode_event s = some m) :
    (Event.from_json_data data).data = data ++ [("hook_event_name", Json.str m)] := by
  have hck := containsKey_eq_false_of_getField_none habs
  unfold Event.from_json_data Event.normalize insertField
  rw [hck, hdet]
  dsimp only
  rw [hm]
  rfl

/-- When the key is absent and no identity is detected, parsing returns the
field mapping unchanged. -/
theorem from_json_data_of_no_detect {data : List (String × Json)}
    (habs : getField data "hook_event_name" = none)
    (hdet : detect_opencode_event_type data = none) :
    Event.from_json_data data = ⟨data⟩ := by
  have hck := containsKey_eq_false_of_getField_none habs
  unfold Event.from_json_data Event.normalize
  rw [hck, hdet]
  rfl


/-- C1 counterexample: an event whose `hook_event_name` value is not a
string.  The key is present (so no normalization insert happens), yet
resolution ignores it and resolves the vendor identity instead, so the
resolved hook type is not that field's value. -/
theorem c1_counterexample :
    containsKey [("hook_event_name", Json.num 0), ("type", Json.str "session.idle")]
      "hook_event_name" = true ∧
    hook_from_event ⟨[("hook_event_name", Json.num 0), ("type", Json.str "session.idle")]⟩ =
      Except.ok (HookInst.stopHook "Stop") ∧
    getField [("hook_event_name", Json.num 0), ("type", Json.str "session.idle")]
      "hook_event_name" = some (Json.num 0) ∧
    Json.as_str (Json.num 0) = none ∧
    (HookInst.stopHook "Stop").hook_type = "Stop" :=
  ⟨rfl, rfl, rfl, rfl, rfl⟩

/-- C1 (amended): for every field mapping whose `hook_event_name` value is a
string `v`, parsing performs no normalization insert, resolution uses `v`
verbatim, and any successfully constructed hook reports `v` as its hook
type, regardless of any other fields present. -/
theorem c1_hook_event_name_passthrough (data : List (String × Json)) (v : String)
    (h : getField data "hook_event_name" = some (Json.str v)) :
    (Event.from_json_data data).data = data ∧
    resolve_hook_name ⟨data⟩ = Except.ok v ∧
    ∀ hk : HookInst, hook_from_event ⟨data⟩ = Except.ok hk → hk.hook_type = v := by
  have hck : containsKey data "hook_event_name" = true := by
    unfold containsKey
    rw [h]
    rfl
  have hres : resolve_hook_name ⟨data⟩ = Except.ok v := by
    unfold resolve_hook_name
    rw [(get_str_eq_some_iff ⟨data⟩ "hook_event_name" v).mpr h]
  refine ⟨?_, hres, ?_⟩
  · rw [from_json_data_of_contains hck]
  · intro hk hok
    unfold hook_from_event at hok
    rw [hres] at hok
    exact hook_type_of_hook_from_name hok

/-- C1 witness at a concrete Claude-Code-style event that also carries a
recognized dotted `type` field. -/
theorem c1_witness :
    getField [("hook_event_name", Json.str "Stop"), ("type", Json.str "tool.execute.before")]
      "hook_event_name" = some (Json.str "Stop") ∧
    (Event.from_json_data
        [("hook_event_name", Json.str "Stop"), ("type", Json.str "tool.execute.before")]).data =
      [("hook_event_name", Json.str "Stop"), ("type", Json.str "tool.execute.before")] ∧
    resolve_hook_name
        ⟨[("hook_event_name", Json.str "Stop"), ("type", Json.str "tool.execute.before")]⟩ =
      Except.ok "Stop" :=
  ⟨rfl,
    (c1_hook_event_name_passthrough
      [("hook_event_name", Json.str "Stop"), ("type", Json.str "tool.execute.before")]
      "Stop" rfl).1,
    (c1_hook_event_name_passthrough
      [("hook_event_name", Json.str "Stop"), ("type", Json.str "tool.execute.before")]
      "Stop" rfl).2.1⟩

/-- C2 counterexample: a present but non-string `hook_event_name` is not
used verbatim, and the failure message of the code differs from the message
stated in the claim. -/
theorem c2_counterexample :
    containsKey [("hook_event_name", Json.num 5)] "hook_event_name" = true ∧
    hook_from_event ⟨[("hook_event_name", Json.num 5)]⟩ =
      Except.error "No hook_event_name or recognized OpenCode event type found" ∧
    (("No hook_event_name or recognized OpenCode event type found" : String) ==
      "no hook_event_name or recognized vendor event type found") = false :=
  ⟨rfl, rfl, by decide⟩

/-- C2 (amended): resolution order — (a) a string-valued `hook_event_name`
is used verbatim; (b) otherwise a detected vendor identity is mapped;
(c) otherwise resolution fails with the message
"No hook_event_name or recognized OpenCode event type found"; and these
three cases are exhaustive. -/
theorem c2_resolution_order (e : Event) :
    (∃ v, e.get_str "hook_event_name" = some v ∧ resolve_hook_name e = Except.ok v) ∨
    (e.get_str "hook_event_name" = none ∧
      ∃ s m, detect_opencode_event_type e.data = some s ∧ map_opencode_event s = some m ∧
        resolve_hook_name e = Except.ok m) ∨
    (e.get_str "hook_event_name" = none ∧ detect_opencode_event_type e.data = none ∧
      resolve_hook_name e =
        Except.error "No hook_event_name or recognized OpenCode event type found") := by
  unfold resolve_hook_name
  cases hg : e.get_str "hook_event_name" with
  | some v =>
    dsimp only
    exact Or.inl ⟨v, rfl, rfl⟩
  | none =>
    dsimp only
    cases hd : detect_opencode_event_type e.data with
    | some s =>
      obtain ⟨m, hm⟩ := map_isSome_of_detect hd
      dsimp only
      rw [hm]
      exact Or.inr (Or.inl ⟨rfl, s, m, rfl, hm, rfl⟩)
    | none =>
      exact Or.inr (Or.inr ⟨rfl, rfl, rfl⟩)

/-- C2 witness at a concrete empty event, which takes the failure branch. -/
theorem c2_witness :
    Event.get_str ⟨[]⟩ "hook_event_name" = none ∧
    detect_opencode_event_type (Event.data ⟨[]⟩) = none ∧
    resolve_hook_name ⟨[]⟩ =
      Except.error "No hook_event_name or recognized OpenCode event type found" := by
  rcases c2_resolution_order ⟨[]⟩ with ⟨v, hv, -⟩ | ⟨-, s, m, hdet, -, -⟩ | ⟨h1, h2, h3⟩
  · exact Option.noConfusion hv
  · exact Option.noConfusion hdet
  · exact ⟨h1, h2, h3⟩


/-- C3: the vendor mapping implements exactly the closed ten-entry table,
and every other string maps to `none`. -/
theorem c3_map_opencode_event_table :
    map_opencode_event "tool.execute.before" = some "PreToolUse" ∧
    map_opencode_event "tool.execute.after" = some "PostToolUse" ∧
    map_opencode_event "session.idle" = some "Stop" ∧
    map_opencode_event "session.created" = some "SessionStart" ∧
    map_opencode_event "session.deleted" = some "SessionEnd" ∧
    map_opencode_event "session.completed" = some "Stop" ∧
    map_opencode_event "session.compacted" = some "PreCompact" ∧
    map_opencode_event "session.compacting" = some "PreCompact" ∧
    map_opencode_event "file.edited" = some "FileEdited" ∧
    map_opencode_event "session.error" = some "SessionError" ∧
    ∀ s : String,
      s ∉ (["tool.execute.before", "tool.execute.after", "session.idle",
        "session.created", "session.deleted", "session.completed",
        "session.compacted", "session.compacting", "file.edited",
        "session.error"] : List String) →
      map_opencode_event s = none := by
  refine ⟨rfl, rfl, rfl, rfl, rfl, rfl, rfl, rfl, rfl, rfl, ?_⟩
  intro s hs
  simp only [List.mem_cons, List.not_mem_nil, or_false] at hs
  push_neg at hs
  obtain ⟨h1, h2, h3, h4, h5, h6, h7, h8, h9, h10⟩ := hs
  simp [map_opencode_event, h1, h2, h3, h4, h5, h6, h7, h8, h9, h10]

/-- C3 witness: a string outside the table maps to `none`. -/
theorem c3_witness : map_opencode_event "session.unknown" = none :=
  c3_map_opencode_event_table.2.2.2.2.2.2.2.2.2.2 "session.unknown" (by decide)

/-- C4: detection returns the first of `type`, `event`, `hook` (in that
fixed priority order) holding a recognized dotted identity, returns `none`
when no field qualifies, and is invariant under permutation of a
unique-keyed mapping, so it never depends on insertion order. -/
theorem c4_detect_priority (data : List (String × Json)) :
    (∀ s, detect_opencode_event_type data = some s ↔
      (IsVendorIdentity data "type" s ∨
        ((∀ t, ¬ IsVendorIdentity data "type" t) ∧ IsVendorIdentity data "event" s) ∨
        ((∀ t, ¬ IsVendorIdentity data "type" t) ∧
          (∀ t, ¬ IsVendorIdentity data "event" t) ∧ IsVendorIdentity data "hook" s))) ∧
    (detect_opencode_event_type data = none ↔
      ∀ f ∈ (["type", "event", "hook"] : List String), ∀ t, ¬ IsVendorIdentity data f t) ∧
    (∀ data' : List (String × Json), data.Perm data' → (data.map Prod.fst).Nodup →
      detect_opencode_event_type data = detect_opencode_event_type data') := by
  refine ⟨?_, ?_, ?_⟩
  · intro s
    rw [detect_opencode_event_type_eq]
    cases hc1 : check_field data "type" with
    | some t =>
      dsimp only
      constructor
      · intro h
        cases h
        exact Or.inl ((check_field_eq_some_iff data "type" _).mp hc1)
      · rintro (h | ⟨hno, -⟩ | ⟨hno, -, -⟩)
        · rw [← check_field_eq_some_iff, hc1] at h
          cases h
          rfl
        · exact absurd ((check_field_eq_some_iff data "type" t).mp hc1) (hno t)
        · exact absurd ((check_field_eq_some_iff data "type" t).mp hc1) (hno t)
    | none =>
      have hno1 : ∀ t, ¬ IsVendorIdentity data "type" t :=
        (check_field_eq_none_iff data "type").mp hc1
      dsimp only
      cases hc2 : check_field data "event" with
      | some t =>
        dsimp only
        constructor
        · intro h
          cases h
          exact Or.inr (Or.inl ⟨hno1, (check_field_eq_some_iff data "event" _).mp hc2⟩)
        · rintro (h | ⟨-, h⟩ | ⟨-, hno2, -⟩)
          · exact absurd h (hno1 s)
          · rw [← check_field_eq_some_iff, hc2] at h
            cases h
            rfl
          · exact absurd ((check_field_eq_some_iff data "event" t).mp hc2) (hno2 t)
      | none =>
        have hno2 : ∀ t, ¬ IsVendorIdentity data "event" t :=
          (check_field_eq_none_iff data "event").mp hc2
        dsimp only
        constructor
        · intro h
          exact Or.inr (Or.inr ⟨hno1, hno2, (check_field_eq_some_iff data "hook" s).mp h⟩)
        · rintro (h | ⟨-, h⟩ | ⟨-, -, h⟩)
          · exact absurd h (hno1 s)
          · exact absurd h (hno2 s)
          · exact (check_field_eq_some_iff data "hook" s).mpr h
  · unfold detect_opencode_event_type
    rw [List.findSome?_eq_none_iff]
    constructor
    · intro h f hf t
      exact (check_field_eq_none_iff data f).mp (h f hf) t
    · intro h f hf
      exact (check_field_eq_none_iff data f).mpr (h f hf)
  · intro data' hperm hnd
    have hg : ∀ f, getField data f = getField data' f := fun f => getField_perm hperm hnd f
    have hc : ∀ f, check_field data f = check_field data' f := by
      intro f
      unfold check_field
      rw [hg f]
    rw [detect_opencode_event_type_eq, detect_opencode_event_type_eq,
      hc "type", hc "event", hc "hook"]

/-- C4 witness: two permutations of the same unique-keyed mapping detect
the same identity, and the `type` field wins over `event`. -/
theorem c4_witness :
    detect_opencode_event_type
        [("event", Json.str "session.idle"), ("type", Json.str "tool.execute.before")] =
      detect_opencode_event_type
        [("type", Json.str "tool.execute.before"), ("event", Json.str "session.idle")] :=
  (c4_detect_priority _).2.2 _
    (List.Perm.swap ("type", Json.str "tool.execute.before")
      ("event", Json.str "session.idle") []) (by decide)


/-- C5: for a field mapping lacking `hook_event_name` but holding a
recognized dotted vendor identity in one of the scanned fields, parsing
appends exactly the one entry `hook_event_name ↦ mapped name` and leaves
every original field present and unmodified. -/
theorem c5_normalization_injects (data : List (String × Json))
    (habs : getField data "hook_event_name" = none)
    (f : String) (hf : f ∈ (["type", "event", "hook"] : List String))
    (s : String) (hs : IsVendorIdentity data f s) :
    ∃ s' m, detect_opencode_event_type data = some s' ∧
      map_opencode_event s' = some m ∧
      (Event.from_json_data data).data = data ++ [("hook_event_name", Json.str m)] ∧
      getField (Event.from_json_data data).data "hook_event_name" = some (Json.str m) ∧
      ∀ k v, getField data k = some v →
        getField (Event.from_json_data data).data k = some v := by
  have hcf : check_field data f = some s := (check_field_eq_some_iff data f s).mpr hs
  have hdet : detect_opencode_event_type data ≠ none := by
    intro hnone
    unfold detect_opencode_event_type at hnone
    rw [List.findSome?_eq_none_iff] at hnone
    rw [hnone f hf] at hcf
    cases hcf
  obtain ⟨s', hdet'⟩ := Option.ne_none_iff_exists'.mp hdet
  obtain ⟨m, hm⟩ := map_isSome_of_detect hdet'
  have heq := from_json_data_of_detect habs hdet' hm
  refine ⟨s', m, hdet', hm, heq, ?_, ?_⟩
  · rw [heq, getField_append_of_none _ habs]
    simp [getField]
  · intro k v hkv
    rw [heq]
    exact getField_append_of_some _ hkv

/-- C5 witness at a concrete OpenCode-style event carrying an `event` field
with a recognized dotted identity. -/
theorem c5_witness :
    getField [("tool", Json.str "bash"), ("event", Json.str "session.idle")]
      "hook_event_name" = none ∧
    (Event.from_json_data
        [("tool", Json.str "bash"), ("event", Json.str "session.idle")]).data =
      [("tool", Json.str "bash"), ("event", Json.str "session.idle")] ++
        [("hook_event_name", Json.str "Stop")] := by
  obtain ⟨s, m, hdet, hm, heq, -, -⟩ :=
    c5_normalization_injects [("tool", Json.str "bash"), ("event", Json.str "session.idle")]
      rfl "event" (by decide) "session.idle" ⟨rfl, rfl, rfl⟩
  have hs : some s = some "session.idle" := by
    rw [← hdet]
    rfl
  cases hs
  have hms : some m = some "Stop" := by
    rw [← hm]
    rfl
  cases hms
  exact ⟨rfl, heq⟩

/-- C6 counterexample: the code's rejection message starts with a capital
letter, so it differs from the message text stated in the claim. -/
theorem c6_counterexample :
    hook_from_name "Bogus" ⟨[]⟩ = Except.error "Unknown hook type: Bogus" ∧
    (("Unknown hook type: Bogus" : String) == "unknown hook type: Bogus") = false :=
  ⟨rfl, by decide⟩

/-- C6 (amended): every name outside the closed enumeration is rejected by
construction with the message "Unknown hook type: {name}"; every name inside
the enumeration except PreToolUse constructs without error; and the
event-level pipeline rejects an unknown resolved name through exactly this
construction error. -/
theorem c6_unknown_hook_rejection :
    (∀ (name : String) (e : Event), name ∉ hookTypeNames →
      hook_from_name name e = Except.error ("Unknown hook type: " ++ name)) ∧
    (∀ (name : String) (e : Event), name ∈ hookTypeNames → name ≠ "PreToolUse" →
      ∃ hk, hook_from_name name e = Except.ok hk) ∧
    (∀ (e : Event) (name : String), resolve_hook_name e = Except.ok name →
      name ∉ hookTypeNames →
      hook_from_event e = Except.error ("Unknown hook type: " ++ name)) := by
  have hneg : ∀ (name : String) (e : Event), name ∉ hookTypeNames →
      hook_from_name name e = Except.error ("Unknown hook type: " ++ name) := by
    intro name e hmem
    simp only [hookTypeNames, List.mem_cons, List.not_mem_nil, or_false] at hmem
    push_neg at hmem
    obtain ⟨h1, h2, h3, h4, h5, h6, h7, h8, h9, h10, h11, h12⟩ := hmem
    simp [hook_from_name, h1, h2, h3, h4, h5, h6, h7, h8, h9, h10, h11, h12]
  refine ⟨hneg, ?_, ?_⟩
  · intro name e hmem hne
    simp only [hookTypeNames, List.mem_cons, List.not_mem_nil, or_false] at hmem
    rcases hmem with rfl | rfl | rfl | rfl | rfl | rfl | rfl | rfl | rfl | rfl | rfl | rfl
    · exact ⟨_, rfl⟩
    · exact ⟨_, rfl⟩
    · exact ⟨_, rfl⟩
    · exact absurd rfl hne
    · exact ⟨_, rfl⟩
    · exact ⟨_, rfl⟩
    · exact ⟨_, rfl⟩
    · exact ⟨_, rfl⟩
    · exact ⟨_, rfl⟩
    · exact ⟨_, rfl⟩
    · exact ⟨_, rfl⟩
    · exact ⟨_, rfl⟩
  · intro e name hres hmem
    unfold hook_from_event
    rw [hres]
    exact hneg name e hmem

/-- C6 witness: a concrete unknown name is rejected with the capitalized
message, and a concrete known non-PreToolUse name constructs its hook. -/
theorem c6_witness :
    hook_from_name "NotARealHook" ⟨[]⟩ =
      Except.error ("Unknown hook type: " ++ "NotARealHook") ∧
    hook_from_name "SessionEnd" ⟨[]⟩ = Except.ok HookInst.sessionEndHook := by
  refine ⟨c6_unknown_hook_rejection.1 "NotARealHook" ⟨[]⟩ (by decide), ?_⟩
  obtain ⟨hk, hok⟩ := c6_unknown_hook_rejection.2.1 "SessionEnd" ⟨[]⟩ (by decide) (by decide)
  have hks : (Except.ok hk : Except String HookInst) = Except.ok HookInst.sessionEndHook := by
    rw [← hok]
    rfl
  cases hks
  exact hok

/-- C7: the FileEdited and SessionError hooks answer the empty JSON object
to every ordered sequence of handler outcomes. -/
theorem c7_passive_hooks_empty_response (outcomes : List HandlerOutcome) :
    FileEditedHook.generate_response outcomes = Json.obj [] ∧
    SessionErrorHook.generate_response outcomes = Json.obj [] :=
  ⟨rfl, rfl⟩

/-- C7 witness at a concrete outcome sequence containing an error and an
interactive outcome. -/
theorem c7_witness :
    FileEditedHook.generate_response
        [HandlerOutcome.error "boom",
          HandlerOutcome.interactive ⟨PermissionDecision.deny, some "no"⟩] = Json.obj [] ∧
    SessionErrorHook.generate_response
        [HandlerOutcome.error "boom",
          HandlerOutcome.interactive ⟨PermissionDecision.deny, some "no"⟩] = Json.obj [] :=
  c7_passive_hooks_empty_response _


/-- C8: the nested string lookup is total with `Option` result — it returns
`some s` exactly when every path segment resolves and the final value is
the string `s`, and `none` exactly otherwise, never an error. -/
theorem c8_get_nested_str_total (e : Event) (path : String) :
    (∀ s, e.get_nested_str path = some s ↔
      PathResolves (Json.obj e.data) (splitOnDot path) (Json.str s)) ∧
    (e.get_nested_str path = none ↔
      ¬ ∃ s, PathResolves (Json.obj e.data) (splitOnDot path) (Json.str s)) := by
  have hkey : ∀ s, e.get_nested_str path = some s ↔
      PathResolves (Json.obj e.data) (splitOnDot path) (Json.str s) := by
    intro s
    unfold Event.get_nested_str
    rw [Option.bind_eq_some]
    constructor
    · rintro ⟨w, hw, hs⟩
      rw [as_str_eq_some_iff] at hs
      subst hs
      exact (walkPath_eq_some_iff _ _ _).mp hw
    · intro h
      exact ⟨Json.str s, (walkPath_eq_some_iff _ _ _).mpr h, rfl⟩
  refine ⟨hkey, ?_⟩
  cases hg : e.get_nested_str path with
  | none =>
    constructor
    · rintro - ⟨s, hs⟩
      rw [← hkey s, hg] at hs
      cases hs
    · intro _
      rfl
  | some s =>
    constructor
    · intro h
      cases h
    · intro h
      exact absurd ⟨s, (hkey s).mp hg⟩ h

/-- C8 witness: a concrete nested lookup resolving to a string. -/
theorem c8_witness :
    Event.get_nested_str ⟨[("tool", Json.obj [("name", Json.str "bash")])]⟩ "tool.name" =
      some "bash" :=
  ((c8_get_nested_str_total ⟨[("tool", Json.obj [("name", Json.str "bash")])]⟩ "tool.name").1
      "bash").mpr
    (PathResolves.cons _ (Json.obj [("name", Json.str "bash")]) _ _ _ rfl
      (PathResolves.cons _ (Json.str "bash") _ _ _ rfl (PathResolves.nil _)))

/-- C9: normalization is idempotent — an event already containing
`hook_event_name` is left exactly unchanged, and in particular every parsed
event normalizes to itself. -/
theorem c9_normalization_idempotent :
    (∀ e : Event, containsKey e.data "hook_event_name" = true → e.normalize = e) ∧
    (∀ data : List (String × Json),
      (Event.from_json_data data).normalize = Event.from_json_data data) := by
  refine ⟨fun e h => normalize_of_containsKey h, ?_⟩
  intro data
  cases hck : containsKey data "hook_event_name" with
  | true =>
    rw [from_json_data_of_contains hck]
    exact normalize_of_containsKey hck
  | false =>
    have hnone : getField data "hook_event_name" = none := by
      unfold containsKey at hck
      cases hg : getField data "hook_event_name" with
      | none => rfl
      | some v =>
        rw [hg] at hck
        cases hck
    cases hdet : detect_opencode_event_type data with
    | none =>
      rw [from_json_data_of_no_detect hnone hdet]
      exact from_json_data_of_no_detect hnone hdet
    | some s =>
      obtain ⟨m, hm⟩ := map_isSome_of_detect hdet
      apply normalize_of_containsKey
      rw [from_json_data_of_detect hnone hdet hm]
      unfold containsKey
      rw [getField_append_of_none _ hnone]
      rfl

/-- C9 witness: a concrete already-normalized event and a concrete parsed
OpenCode event are both fixed points of normalization. -/
theorem c9_witness :
    Event.normalize ⟨[("hook_event_name", Json.str "Stop")]⟩ =
      ⟨[("hook_event_name", Json.str "Stop")]⟩ ∧
    (Event.from_json_data [("event", Json.str "session.idle")]).normalize =
      Event.from_json_data [("event", Json.str "session.idle")] :=
  ⟨c9_normalization_idempotent.1 ⟨[("hook_event_name", Json.str "Stop")]⟩ rfl,
    c9_normalization_idempotent.2 [("event", Json.str "session.idle")]⟩


/-- C10: whatever the detection returns always has a mapping, so the
"Unrecognized OpenCode event" branch of `hook_from_event` is unreachable:
the pipeline either delegates a resolved name to construction or fails with
the no-identity message. -/
theorem c10_unrecognized_branch_unreachable :
    (∀ (data : List (String × Json)) (s : String),
      detect_opencode_event_type data = some s → ∃ m, map_opencode_event s = some m) ∧
    (∀ e : Event,
      (∃ name, resolve_hook_name e = Except.ok name ∧
        hook_from_event e = hook_from_name name e) ∨
      (resolve_hook_name e =
          Except.error "No hook_event_name or recognized OpenCode event type found" ∧
        hook_from_event e =
          Except.error "No hook_event_name or recognized OpenCode event type found")) := by
  refine ⟨fun data s h => map_isSome_of_detect h, ?_⟩
  intro e
  cases hr : resolve_hook_name e with
  | ok name =>
    refine Or.inl ⟨name, rfl, ?_⟩
    unfold hook_from_event
    rw [hr]
  | error msg =>
    have hmsg : msg = "No hook_event_name or recognized OpenCode event type found" := by
      unfold resolve_hook_name at hr
      cases hg : Event.get_str e "hook_event_name" with
      | some v =>
        rw [hg] at hr
        cases hr
      | none =>
        rw [hg] at hr
        dsimp only at hr
        cases hd : detect_opencode_event_type e.data with
        | some s =>
          rw [hd] at hr
          obtain ⟨m, hm⟩ := map_isSome_of_detect hd
          dsimp only at hr
          rw [hm] at hr
          cases hr
        | none =>
          rw [hd] at hr
          dsimp only at hr
          cases hr
          rfl
    subst hmsg
    refine Or.inr ⟨rfl, ?_⟩
    unfold hook_from_event
    rw [hr]

/-- C10 witness: a concretely detected identity has a mapping. -/
theorem c10_witness :
    map_opencode_event "file.edited" = some "FileEdited" := by
  obtain ⟨m, hm⟩ :=
    c10_unrecognized_branch_unreachable.1 [("type", Json.str "file.edited")] "file.edited" rfl
  have hms : some m = some "FileEdited" := by
    rw [← hm]
    rfl
  cases hms
  exact hm

end Boopifier
